import Mathlib

/-!
Verification of the FluidAPI request pipeline
(`src/fluid_api_agent/main.py`) against its specification.

The embedding models:
- JSON values and Python's `json` module (`json.loads` / serialization)
  as an executable parser and renderer over character lists;
- the pydantic schema `APIRequestSchema` and `validate_agent_output`;
- the tenacity `@retry(stop=stop_after_attempt(3))` combinator as a
  fuel-indexed retry loop that reports how many attempts were made;
- `parse_agent_response`, `execute_async_api_call`,
  `batch_fluid_api_request`, and the configuration plumbing of
  `fluid_api_request`.

Numbers are modelled as arbitrary-precision integers (Python ints);
fractional / exponent JSON literals are outside the model, as is the
wall-clock component of backoff waits (the claims under study concern
attempt counts and data flow, not timing).
-/

namespace FluidAPI

/-! ### JSON values (model of Python dict/list/str/int/bool/None data) -/

/-- JSON values as produced by `json.loads`.  Objects keep their fields as
an association list in textual order. -/
inductive Json where
  | null : Json
  | bool : Bool → Json
  | num : Int → Json
  | str : String → Json
  | arr : List Json → Json
  | obj : List (String × Json) → Json

/-- Whether a decoded value is a JSON object (a Python `dict`). -/
def Json.isObj : Json → Bool
  | .obj _ => true
  | _ => false

/-! ### Character-level JSON parser (model of `json.loads`) -/

/-- JSON whitespace. -/
def isWs (c : Char) : Bool :=
  c = ' ' || c = '\n' || c = '\t' || c = '\r'

/-- Drop leading JSON whitespace. -/
def skipWs : List Char → List Char
  | [] => []
  | c :: cs => if isWs c then skipWs cs else c :: cs

/-- Value of a hexadecimal digit. -/
def hexVal : Char → Option Nat := fun c =>
  if '0' ≤ c ∧ c ≤ '9' then some (c.toNat - 48)
  else if 'a' ≤ c ∧ c ≤ 'f' then some (c.toNat - 87)
  else if 'A' ≤ c ∧ c ≤ 'F' then some (c.toNat - 55)
  else none

/-- Short escape sequences accepted after a backslash. -/
def escMap : Char → Option Char := fun e =>
  if e = '"' then some '"'
  else if e = '\\' then some '\\'
  else if e = '/' then some '/'
  else if e = 'n' then some '\n'
  else if e = 't' then some '\t'
  else if e = 'r' then some '\r'
  else if e = 'b' then some (Char.ofNat 8)
  else if e = 'f' then some (Char.ofNat 12)
  else none

mutual

/-- Parse the body of a JSON string after the opening quote; returns the
decoded characters and the input following the closing quote.  Raw
control characters are rejected, as in Python's strict decoder. -/
def parseStringBody : List Char → Option (List Char × List Char)
  | [] => none
  | c :: rest =>
    if c = '"' then some ([], rest)
    else if c = '\\' then parseEscape rest
    else if c.toNat < 32 then none
    else (parseStringBody rest).map (fun p => (c :: p.1, p.2))

/-- Decode one escape sequence after a backslash, then continue with
the string body. -/
def parseEscape : List Char → Option (List Char × List Char)
  | [] => none
  | e :: rest2 =>
    if e = 'u' then
      match rest2 with
      | a :: b :: c2 :: d :: rest3 =>
        match hexVal a, hexVal b, hexVal c2, hexVal d with
        | some x1, some x2, some x3, some x4 =>
          (parseStringBody rest3).map
            (fun p => (Char.ofNat (((x1 * 16 + x2) * 16 + x3) * 16 + x4) :: p.1, p.2))
        | _, _, _, _ => none
      | _ => none
    else
      match escMap e with
      | some ch => (parseStringBody rest2).map (fun p => (ch :: p.1, p.2))
      | none => none

end

/-- Consume a maximal run of decimal digits, folding them onto `acc`. -/
def parseDigits : List Char → Nat → Nat × List Char
  | [], acc => (acc, [])
  | c :: cs, acc =>
    if c.isDigit then parseDigits cs (acc * 10 + (c.toNat - 48)) else (acc, c :: cs)

/-- Parse a natural-number literal.  A following `.`, `e` or `E` would
start a float literal, which is outside the model, so it is rejected. -/
def parseNat : List Char → Option (Nat × List Char)
  | [] => none
  | c :: rest =>
    if c.isDigit then
      match parseDigits (c :: rest) 0 with
      | (n, r) =>
        match r with
        | [] => some (n, [])
        | c2 :: _ =>
          if c2 = '.' ∨ c2 = 'e' ∨ c2 = 'E' then none else some (n, r)
    else none

/-- Parse an integer literal (optional leading minus). -/
def parseNumber : List Char → Option (Int × List Char)
  | [] => none
  | c :: rest =>
    if c = '-' then (parseNat rest).map (fun p => (-(p.1 : Int), p.2))
    else (parseNat (c :: rest)).map (fun p => ((p.1 : Int), p.2))

/-- Match an expected literal suffix ("ull", "rue", "alse"). -/
def expectLit : List Char → List Char → Option (List Char)
  | [], r => some r
  | e :: es, c :: r => if c = e then expectLit es r else none
  | _ :: _, [] => none

/-- Parsing modes: a full value, the elements of a non-empty array, or
the members of a non-empty object. -/
inductive PMode where
  | value : PMode
  | elems : PMode
  | members : PMode
deriving DecidableEq, Repr

/-- One step of value parsing; `recurElems` and `recurMembers` are the
recursive entries for bracketed structures. -/
def valueStep (recurElems recurMembers : List Char → Option (Json × List Char))
    (cs : List Char) : Option (Json × List Char) :=
  match skipWs cs with
  | [] => none
  | c :: r =>
    if c = 'n' then (expectLit ['u', 'l', 'l'] r).map (fun r2 => (.null, r2))
    else if c = 't' then (expectLit ['r', 'u', 'e'] r).map (fun r2 => (.bool true, r2))
    else if c = 'f' then (expectLit ['a', 'l', 's', 'e'] r).map (fun r2 => (.bool false, r2))
    else if c = '"' then (parseStringBody r).map (fun p => (.str (String.mk p.1), p.2))
    else if c = '[' then
      match skipWs r with
      | ']' :: r2 => some (.arr [], r2)
      | _ =>
        match recurElems r with
        | some (.arr vs, r2) => some (.arr vs, r2)
        | _ => none
    else if c = '{' then
      match skipWs r with
      | '}' :: r2 => some (.obj [], r2)
      | _ =>
        match recurMembers r with
        | some (.obj ms, r2) => some (.obj ms, r2)
        | _ => none
    else (parseNumber (c :: r)).map (fun p => (.num p.1, p.2))

/-- One step of array-element parsing (after the opening bracket, for a
non-empty array). -/
def elemsStep (recurValue recurElems : List Char → Option (Json × List Char))
    (cs : List Char) : Option (Json × List Char) :=
  match recurValue cs with
  | none => none
  | some (v, r) =>
    match skipWs r with
    | [] => none
    | c :: r2 =>
      if c = ',' then
        match recurElems r2 with
        | some (.arr vs, r3) => some (.arr (v :: vs), r3)
        | _ => none
      else if c = ']' then some (.arr [v], r2)
      else none

/-- One step of object-member parsing (after the opening brace, for a
non-empty object). -/
def membersStep (recurValue recurMembers : List Char → Option (Json × List Char))
    (cs : List Char) : Option (Json × List Char) :=
  match skipWs cs with
  | [] => none
  | c :: r =>
    if c = '"' then
      match parseStringBody r with
      | none => none
      | some (k, r1) =>
        match skipWs r1 with
        | [] => none
        | c1 :: r2 =>
          if c1 = ':' then
            match recurValue r2 with
            | none => none
            | some (v, r3) =>
              match skipWs r3 with
              | [] => none
              | c2 :: r4 =>
                if c2 = ',' then
                  match recurMembers r4 with
                  | some (.obj ms, r5) => some (.obj ((String.mk k, v) :: ms), r5)
                  | _ => none
                else if c2 = '}' then some (.obj [(String.mk k, v)], r4)
                else none
          else none
    else none

/-- Fuel-indexed recursive-descent JSON parser.  In mode `.elems` the
result is always an `.arr`, in mode `.members` always an `.obj`. -/
def parseStep : Nat → PMode → List Char → Option (Json × List Char)
  | 0, _, _ => none
  | fuel + 1, .value, cs =>
    valueStep (parseStep fuel .elems) (parseStep fuel .members) cs
  | fuel + 1, .elems, cs =>
    elemsStep (parseStep fuel .value) (parseStep fuel .elems) cs
  | fuel + 1, .members, cs =>
    membersStep (parseStep fuel .value) (parseStep fuel .members) cs

/-- Model of `json.loads`: parse a complete JSON document; trailing
whitespace is allowed, anything else is a decode error (`none`). -/
def jsonParse (s : String) : Option Json :=
  match parseStep (4 * s.length + 4) .value s.data with
  | some (v, r) => if skipWs r = [] then some v else none
  | none => none

/-! ### JSON rendering (model of serialization / `model_dump_json`) -/

/-- One hexadecimal digit character. -/
def lowHexDigit (n : Nat) : Char :=
  if n < 10 then Char.ofNat (48 + n) else Char.ofNat (87 + n)

/-- The `\u00XX` escape of a control character's code point. -/
def controlEscape (n : Nat) : List Char :=
  '\\' :: 'u' :: '0' :: '0' :: lowHexDigit (n / 16) :: [lowHexDigit (n % 16)]

/-- Escape one character of a JSON string: quote and backslash get a
backslash escape, control characters a `\u00XX` escape, everything else
is emitted literally. -/
def escapeChar (c : Char) : List Char :=
  if c = '"' then ['\\', '"']
  else if c = '\\' then ['\\', '\\']
  else if c.toNat < 32 then controlEscape c.toNat
  else [c]

/-- Escape a whole string body. -/
def escapeChars : List Char → List Char
  | [] => []
  | c :: cs => escapeChar c ++ escapeChars cs

/-- Decimal digits of a natural number, most significant first
(fuel-indexed; `fuel > n` is always enough). -/
def natToCharsF : Nat → Nat → List Char
  | 0, _ => []
  | fuel + 1, n =>
    if n < 10 then [Char.ofNat (48 + n)]
    else natToCharsF fuel (n / 10) ++ [Char.ofNat (48 + n % 10)]

/-- Decimal digits of a natural number. -/
def natToChars (n : Nat) : List Char := natToCharsF (n + 1) n

/-- Render an integer literal. -/
def renderInt (i : Int) : List Char :=
  if i < 0 then '-' :: natToChars i.natAbs else natToChars i.toNat

/-- Render a string literal including the surrounding quotes. -/
def renderStr (s : String) : List Char :=
  '"' :: (escapeChars s.data ++ ['"'])

mutual

/-- Render a JSON value to characters (compact form, no whitespace). -/
def renderChars : Json → List Char
  | .null => "null".data
  | .bool true => "true".data
  | .bool false => "false".data
  | .num n => renderInt n
  | .str s => renderStr s
  | .arr [] => ['[', ']']
  | .arr (x :: xs) => '[' :: (renderChars x ++ renderElemsTail xs ++ [']'])
  | .obj [] => ['{', '}']
  | .obj (m :: ms) => '{' :: (renderMember m ++ renderMembersTail ms ++ ['}'])

/-- Render `,e2,e3,...` for the elements after the first. -/
def renderElemsTail : List Json → List Char
  | [] => []
  | x :: xs => ',' :: (renderChars x ++ renderElemsTail xs)

/-- Render one `"key":value` object member. -/
def renderMember : String × Json → List Char
  | (k, v) => renderStr k ++ (':' :: renderChars v)

/-- Render `,m2,m3,...` for the members after the first. -/
def renderMembersTail : List (String × Json) → List Char
  | [] => []
  | m :: ms => ',' :: (renderMember m ++ renderMembersTail ms)

end

/-- Render a JSON value to a string. -/
def renderJson (v : Json) : String := String.mk (renderChars v)

/-! ### `APIRequestSchema` and `validate_agent_output`
(src/fluid_api_agent/main.py lines 15-19 and 78-96) -/

/-- Pydantic model `APIRequestSchema`: `method: str`, `url: str`,
`headers: dict`, `body: dict`.  Python dicts are modelled as
association lists of JSON values. -/
structure APIRequestSchema where
  method : String
  url : String
  headers : List (String × Json)
  body : List (String × Json)

/-- Lookup in a Python dict built from JSON object members: for a
duplicated key the later entry wins, as in `json.loads`. -/
def lookupLast (fields : List (String × Json)) (key : String) : Option Json :=
  match fields with
  | [] => none
  | kv :: rest =>
    match lookupLast rest key with
    | some w => some w
    | none => if kv.1 = key then some kv.2 else none

/-- A pydantic `ValidationError` raised by `APIRequestSchema(**output)`:
a required field is missing, or its value has the wrong type. -/
inductive SchemaViolation where
  | missingField : String → SchemaViolation
  | mistypedField : String → SchemaViolation
deriving DecidableEq, Repr

/-- `validate_agent_output`: builds `APIRequestSchema(**output)`.
`method` and `url` must be strings, `headers` and `body` must be dicts
(pydantic v2 lax mode does not coerce other JSON types into these);
extra keys are ignored (pydantic's default `extra="ignore"`). -/
def validate_agent_output (output : List (String × Json)) :
    Except SchemaViolation APIRequestSchema :=
  match lookupLast output "method" with
  | none => .error (.missingField "method")
  | some (.str m) =>
    match lookupLast output "url" with
    | none => .error (.missingField "url")
    | some (.str u) =>
      match lookupLast output "headers" with
      | none => .error (.missingField "headers")
      | some (.obj h) =>
        match lookupLast output "body" with
        | none => .error (.missingField "body")
        | some (.obj b) => .ok ⟨m, u, h, b⟩
        | some _ => .error (.mistypedField "body")
      | some _ => .error (.mistypedField "headers")
    | some _ => .error (.mistypedField "url")
  | some _ => .error (.mistypedField "method")

/-- Shape of a dict value accepted for a `str` field. -/
def isStrVal : Option Json → Bool
  | some (.str _) => true
  | _ => false

/-- Shape of a dict value accepted for a `dict` field. -/
def isObjVal : Option Json → Bool
  | some (.obj _) => true
  | _ => false

/-- The input dict has all four required fields with the required
types. -/
def wellTypedOutput (output : List (String × Json)) : Prop :=
  isStrVal (lookupLast output "method") = true ∧
  isStrVal (lookupLast output "url") = true ∧
  isObjVal (lookupLast output "headers") = true ∧
  isObjVal (lookupLast output "body") = true

instance (output : List (String × Json)) : Decidable (wellTypedOutput output) := by
  unfold wellTypedOutput; infer_instance

/-! ### The tenacity retry combinator
(`@retry(stop=stop_after_attempt(3), wait=wait_exponential(...))`).
Only the attempt-count behaviour is modelled; the exponential waits
between attempts affect wall-clock time, not results. -/

/-- Run attempt `i`; on failure with `fuel` further attempts remaining,
move to attempt `i+1`.  Returns the final outcome together with the
total number of attempts made. -/
def retryGo (f : Nat → Except ε α) : Nat → Nat → Except ε α × Nat
  | 0, i => (f i, i + 1)
  | fuel + 1, i =>
    match f i with
    | .ok a => (.ok a, i + 1)
    | .error _ => retryGo f fuel (i + 1)

/-- `stop_after_attempt n` (with `n ≥ 1`): at most `n` attempts, the
outcome of the last one is surfaced. -/
def retryAttempts (n : Nat) (f : Nat → Except ε α) : Except ε α × Nat :=
  retryGo f (n - 1) 0

/-! ### `parse_agent_response` (src/fluid_api_agent/main.py lines 153-182) -/

/-- The `json.JSONDecodeError` surfaced (via tenacity) when the agent
text never decodes; the spec calls this `MalformedResponse`. -/
inductive ParseFailure where
  | malformedResponse : ParseFailure
deriving DecidableEq, Repr

/-- `parse_agent_response`: `json.loads` under
`@retry(stop=stop_after_attempt(3))`.  The decode is deterministic, so
every attempt sees the same text. -/
def parse_agent_response (response : String) : Except ParseFailure Json × Nat :=
  retryAttempts 3 (fun _ =>
    match jsonParse response with
    | some v => .ok v
    | none => .error .malformedResponse)

/-! ### `execute_async_api_call` (src/fluid_api_agent/main.py lines 99-150) -/

/-- `aiohttp.ClientError`: a connection/timeout failure of the request
itself, or the `ClientResponseError` raised by `raise_for_status`. -/
inductive ClientError where
  | connError : ClientError
  | statusError : Nat → ClientError
deriving DecidableEq, Repr

/-- A failure of one executor attempt: an `aiohttp.ClientError`, or the
decode failure raised by `response.json()` on a non-JSON body.  Both
propagate out of the attempt and are retried by tenacity. -/
inductive ExecFailure where
  | client : ClientError → ExecFailure
  | decodeFailure : ExecFailure
deriving DecidableEq, Repr

/-- What the network hands back for one exchange: the status code, the
response text, and the response metadata.  `elapsed` is the measured
wall-clock duration of the exchange (abstract time units). -/
structure HttpResponse where
  status : Nat
  text : String
  content_type : String
  content_length : Option Nat
  headers : List (String × String)
  elapsed : Nat

/-- The `response` field of an envelope: a decoded JSON value
(`await response.json()`) or the raw text (`await response.text()`). -/
inductive RespData where
  | jsonVal : Json → RespData
  | rawText : String → RespData

/-- Pydantic model `APIResponseSchema`. -/
structure APIResponseSchema where
  request : APIRequestSchema
  response : RespData
  status_code : Nat
  elapsed_time : Nat
  metadata_content_type : String
  metadata_content_length : Option Nat
  metadata_headers : List (String × String)

/-- One attempt of `execute_async_api_call`'s body: issue the request on
the transport (which may itself fail), `raise_for_status` (raises
`ClientResponseError` exactly when `status >= 400`), then read the body
raw or JSON-decoded and build the envelope. -/
def execute_attempt (transport : Nat → Except ClientError HttpResponse)
    (api_request : APIRequestSchema) (return_raw : Bool) (i : Nat) :
    Except ExecFailure APIResponseSchema :=
  match transport i with
  | .error e => .error (.client e)
  | .ok resp =>
    if 400 ≤ resp.status then .error (.client (.statusError resp.status))
    else
      if return_raw then
        .ok ⟨api_request, .rawText resp.text, resp.status, resp.elapsed,
             resp.content_type, resp.content_length, resp.headers⟩
      else
        match jsonParse resp.text with
        | some j =>
          .ok ⟨api_request, .jsonVal j, resp.status, resp.elapsed,
               resp.content_type, resp.content_length, resp.headers⟩
        | none => .error .decodeFailure

/-- `execute_async_api_call`: the attempt body under
`@retry(stop=stop_after_attempt(3))`. -/
def execute_async_api_call (transport : Nat → Except ClientError HttpResponse)
    (api_request : APIRequestSchema) (return_raw : Bool) :
    Except ExecFailure APIResponseSchema × Nat :=
  retryAttempts 3 (execute_attempt transport api_request return_raw)

/-! ### The parse → validate stage of `FluidAPI.process_task_with_agent`
(src/fluid_api_agent/main.py lines 317-321) -/

/-- Failures surfaced by the parse → validate stage:
`MalformedResponse` after the parser's retries are exhausted; the
`TypeError` raised by `APIRequestSchema(**output)` when the decoded
value is not a dict; a pydantic `ValidationError` otherwise. -/
inductive StageFailure where
  | malformedResponse : StageFailure
  | notAMapping : StageFailure
  | schemaViolation : SchemaViolation → StageFailure
deriving DecidableEq, Repr

/-- `validate_agent_output(parse_agent_response(response, ...), ...)`:
the decoded value is handed to the validator exactly once (no retry
decorates `validate_agent_output`); the second and third components
count the parse attempts and the validation attempts. -/
def parse_then_validate (response : String) :
    Except StageFailure APIRequestSchema × Nat × Nat :=
  match parse_agent_response response with
  | (.error _, parseAttempts) => (.error .malformedResponse, parseAttempts, 0)
  | (.ok j, parseAttempts) =>
    match j with
    | .obj fields =>
      match validate_agent_output fields with
      | .ok r => (.ok r, parseAttempts, 1)
      | .error e => (.error (.schemaViolation e), parseAttempts, 1)
    | _ => (.error .notAMapping, parseAttempts, 1)

/-! ### `batch_fluid_api_request` (src/fluid_api_agent/main.py lines 489-515)

Each iteration calls the module-level `fluid_api_request`, which runs
the whole agent → parse → validate → execute pipeline and returns the
envelope serialized as a JSON string, or raises.  That per-task run is
the parameter `runTask`. -/

/-- Any exception escaping one task's pipeline. -/
inductive TaskFailure where
  | taskFailure : TaskFailure
deriving DecidableEq, Repr

/-- The loop body of `batch_fluid_api_request`: each task is attempted
in input order; a failure is caught (`except Exception: ... continue`)
and the task contributes nothing to `responses`. -/
def batchResponses (runTask : String → Except TaskFailure String) :
    List String → List String
  | [] => []
  | t :: ts =>
    match runTask t with
    | .ok r => r :: batchResponses runTask ts
    | .error _ => batchResponses runTask ts

/-- `batch_fluid_api_request`: the collected responses joined with
blank lines. -/
def batch_fluid_api_request (runTask : String → Except TaskFailure String)
    (tasks : List String) : String :=
  String.intercalate "\n\n" (batchResponses runTask tasks)

/-! ### Configuration plumbing of `fluid_api_request`
(src/fluid_api_agent/main.py lines 417-461 and 495-501)

Python passes these arguments untyped; `Py` models the values that
actually flow through them. -/

/-- An untyped Python argument value. -/
inductive Py where
  | pstr : String → Py
  | pbool : Bool → Py
  | pnone : Py
deriving DecidableEq, Repr

/-- The read-only configuration stored by `FluidAPI.__init__`. -/
structure FluidAPIConfig where
  model_name : Py
  documentation : Py
  verbose : Py
  output_type : Py
  return_raw : Py
deriving DecidableEq, Repr

/-- The `FluidAPI` instance built by the module-level
`fluid_api_request(task, model_name="gpt-4.1", documentation=None,
return_raw=False, verbose=False)`. -/
def fluid_api_request_config
    (model_name : Py := .pstr "gpt-4.1") (documentation : Py := .pnone)
    (return_raw : Py := .pbool false) (verbose : Py := .pbool false) :
    FluidAPIConfig :=
  { model_name := model_name
    documentation := documentation
    verbose := verbose
    output_type := .pstr "final"
    return_raw := return_raw }

/-- The configuration each task of `batch_fluid_api_request` runs
under: the source calls `fluid_api_request(task, documentation,
return_raw, verbose)` with positional arguments, so `documentation`
arrives in the `model_name` slot, `return_raw` in the `documentation`
slot and `verbose` in the `return_raw` slot. -/
def batch_task_config (documentation : Py) (return_raw : Py) (verbose : Py) :
    FluidAPIConfig :=
  fluid_api_request_config documentation return_raw verbose

/-! ### Serialization of a `RequestSpec` (the request part of
`model_dump_json`) -/

/-- The JSON object a validated request serializes to. -/
def requestToJson (r : APIRequestSchema) : Json :=
  .obj [("method", .str r.method), ("url", .str r.url),
        ("headers", .obj r.headers), ("body", .obj r.body)]

/-- Serialize a request to JSON text. -/
def serializeRequest (r : APIRequestSchema) : String :=
  renderJson (requestToJson r)

/-! ### Fuel measures for the round-trip proof -/

mutual

/-- Enough parser fuel for one value. -/
def jsonFuel : Json → Nat
  | .arr xs => 1 + elemsFuel xs
  | .obj ms => 1 + membersFuel ms
  | _ => 1

/-- Enough parser fuel for array elements. -/
def elemsFuel : List Json → Nat
  | [] => 0
  | x :: xs => 1 + jsonFuel x + elemsFuel xs

/-- Enough parser fuel for object members. -/
def membersFuel : List (String × Json) → Nat
  | [] => 0
  | m :: ms => 1 + jsonFuel m.2 + membersFuel ms

end

/-- What may legally follow a rendered value: nothing, or a separator /
closing bracket.  (Needed so that number literals are not extended by
the following text.) -/
def okRest (rest : List Char) : Prop :=
  rest = [] ∨ ∃ c t, rest = c :: t ∧ (c = ',' ∨ c = ']' ∨ c = '}')

/-! ### Concrete inputs used by the witnesses -/

/-- A request used by the executor witnesses. -/
def wReq : APIRequestSchema := ⟨"GET", "https://example.com", [], []⟩

/-- Response delivered by the retry-then-succeed transport. -/
def wRespOk : HttpResponse := ⟨200, "[]", "application/json", some 2, [], 1⟩

/-- Transport that fails on the first two attempts and succeeds on the
third. -/
def wTransportFlaky : Nat → Except ClientError HttpResponse :=
  fun i => if i < 2 then .error .connError else .ok wRespOk

/-- Transport that fails on every attempt. -/
def wTransportDown : Nat → Except ClientError HttpResponse :=
  fun _ => .error .connError

/-- A 304 response: not 2xx, yet below the `raise_for_status`
threshold. -/
def wResp304 : HttpResponse := ⟨304, "x", "text/plain", none, [], 1⟩

/-- Transport that always yields the 304 response. -/
def wTransport304 : Nat → Except ClientError HttpResponse :=
  fun _ => .ok wResp304

/-- Envelope the executor returns for the 304 response in raw mode. -/
def wEnv304 : APIResponseSchema :=
  ⟨wReq, .rawText "x", 304, 1, "text/plain", none, []⟩

/-- A 500 response, which `raise_for_status` rejects. -/
def wResp500 : HttpResponse := ⟨500, "", "text/plain", none, [], 1⟩

/-- Transport that always yields the 500 response. -/
def wTransport500 : Nat → Except ClientError HttpResponse :=
  fun _ => .ok wResp500

/-- Response with a JSON body, for the response-decoding witness. -/
def wRespJson : HttpResponse := ⟨200, "[3]", "application/json", some 3, [], 2⟩

/-- Transport that always yields the JSON response. -/
def wTransportJson : Nat → Except ClientError HttpResponse :=
  fun _ => .ok wRespJson

/-- Envelope the executor returns for `wRespJson` in decoded mode. -/
def wEnvJson : APIResponseSchema :=
  ⟨wReq, .jsonVal (.arr [.num 3]), 200, 2, "application/json", some 3, []⟩

/-- A well-typed validator input. -/
def wGoodFields : List (String × Json) :=
  [("method", .str "GET"), ("url", .str "https://example.com"),
   ("headers", .obj []), ("body", .obj [])]

/-- A mistyped validator input (`method` is a number). -/
def wBadFields : List (String × Json) := [("method", .num 1)]

/-! ## Helper lemmas -/

/-- The retry loop makes at most `fuel + 1` further attempts. -/
theorem retryGo_attempts_le {ε α : Type} (f : Nat → Except ε α) :
    ∀ fuel i, (retryGo f fuel i).2 ≤ i + fuel + 1 := by
  intro fuel
  induction fuel with
  | zero => intro i; simp [retryGo]
  | succ k ih =>
    intro i
    simp only [retryGo]
    cases f i with
    | ok a => simp
    | error e => dsimp only; have := ih (i + 1); omega

/-- The surfaced outcome is that of the last attempt made. -/
theorem retryGo_last {ε α : Type} (f : Nat → Except ε α) :
    ∀ fuel i, (retryGo f fuel i).1 = f ((retryGo f fuel i).2 - 1) := by
  intro fuel
  induction fuel with
  | zero => intro i; simp [retryGo]
  | succ k ih =>
    intro i
    simp only [retryGo]
    cases h : f i with
    | ok a => simp [h]
    | error e => exact ih (i + 1)

/-- With a deterministic success, the retry wrapper succeeds on the
first attempt. -/
theorem parse_agent_response_ok (s : String) (v : Json)
    (h : jsonParse s = some v) : parse_agent_response s = (.ok v, 1) := by
  simp [parse_agent_response, retryAttempts, retryGo, h]

/-- With a deterministic failure, the retry wrapper fails after
exactly 3 attempts. -/
theorem parse_agent_response_none (s : String)
    (h : jsonParse s = none) :
    parse_agent_response s = (.error .malformedResponse, 3) := by
  simp [parse_agent_response, retryAttempts, retryGo, h]

/-! ## Claims -/

/-- C1: the batch runner processes tasks strictly in input order; a
per-task failure is caught and the task skipped while all later tasks
are still attempted; the output is exactly the serialized envelopes of
the tasks that succeeded, in input order, with no placeholder for the
failures. -/
theorem batch_failure_isolation (runTask : String → Except TaskFailure String)
    (tasks : List String) :
    batchResponses runTask tasks =
      tasks.filterMap (fun t => (runTask t).toOption) ∧
    batch_fluid_api_request runTask tasks =
      String.intercalate "\n\n" (tasks.filterMap (fun t => (runTask t).toOption)) := by
  have hmain : batchResponses runTask tasks =
      tasks.filterMap (fun t => (runTask t).toOption) := by
    induction tasks with
    | nil => simp [batchResponses]
    | cons t ts ih =>
      simp only [batchResponses, List.filterMap_cons]
      cases h : runTask t with
      | ok r => simp [h, Except.toOption, ih]
      | error e => simp [h, Except.toOption, ih]
  exact ⟨hmain, by simp [batch_fluid_api_request, hmain]⟩

/-- C2: the executor makes at most 3 attempts; if the transport fails
on the first two attempts and the third attempt succeeds, the envelope
of the third attempt is returned after exactly 3 attempts; if the
transport fails on all three attempts, the failure is surfaced after
exactly 3 attempts and no 4th attempt is made. -/
theorem execute_retry_bounded (transport : Nat → Except ClientError HttpResponse)
    (req : APIRequestSchema) (raw : Bool) :
    (execute_async_api_call transport req raw).2 ≤ 3 ∧
    (∀ e0 e1 env, transport 0 = .error e0 → transport 1 = .error e1 →
      execute_attempt transport req raw 2 = .ok env →
      execute_async_api_call transport req raw = (.ok env, 3)) ∧
    (∀ e0 e1 e2, transport 0 = .error e0 → transport 1 = .error e1 →
      transport 2 = .error e2 →
      execute_async_api_call transport req raw = (.error (.client e2), 3)) := by
  refine ⟨?_, ?_, ?_⟩
  · have := retryGo_attempts_le (execute_attempt transport req raw) 2 0
    simpa [execute_async_api_call, retryAttempts] using this
  · intro e0 e1 env h0 h1 h2
    have a0 : execute_attempt transport req raw 0 = .error (.client e0) := by
      simp [execute_attempt, h0]
    have a1 : execute_attempt transport req raw 1 = .error (.client e1) := by
      simp [execute_attempt, h1]
    simp [execute_async_api_call, retryAttempts, retryGo, a0, a1, h2]
  · intro e0 e1 e2 h0 h1 h2
    have a0 : execute_attempt transport req raw 0 = .error (.client e0) := by
      simp [execute_attempt, h0]
    have a1 : execute_attempt transport req raw 1 = .error (.client e1) := by
      simp [execute_attempt, h1]
    have a2 : execute_attempt transport req raw 2 = .error (.client e2) := by
      simp [execute_attempt, h2]
    simp [execute_async_api_call, retryAttempts, retryGo, a0, a1, a2]

/-- Witness for C2 at concrete transports: the flaky transport yields a
successful envelope on the 3rd attempt; the dead transport fails after
exactly 3 attempts. -/
theorem execute_retry_bounded_witness :
    execute_async_api_call wTransportFlaky wReq true =
      (.ok ⟨wReq, .rawText "[]", 200, 1, "application/json", some 2, []⟩, 3) ∧
    execute_async_api_call wTransportDown wReq true =
      (.error (.client .connError), 3) :=
  ⟨(execute_retry_bounded wTransportFlaky wReq true).2.1 .connError .connError
      _ rfl rfl rfl,
   (execute_retry_bounded wTransportDown wReq true).2.2 .connError .connError
      .connError rfl rfl rfl⟩

/-- C6 (code bug): the batch runner passes its arguments to
`fluid_api_request` positionally, so the per-task orchestrator is
configured with the documentation text as the model name, the raw-mode
flag as the documentation, the verbosity as the raw-mode flag, and the
default (`False`) verbosity — not with the caller's configuration. -/
theorem batch_config_swapped :
    batch_task_config (.pstr "API docs") (.pbool true) (.pbool true) =
      { model_name := .pstr "API docs", documentation := .pbool true,
        verbose := .pbool false, output_type := .pstr "final",
        return_raw := .pbool true } ∧
    (batch_task_config (.pstr "API docs") (.pbool true) (.pbool true)).documentation
      ≠ .pstr "API docs" ∧
    (batch_task_config (.pstr "API docs") (.pbool true) (.pbool true)).verbose
      ≠ .pbool true :=
  ⟨rfl, by decide, by decide⟩

/-- C3: on text that is not valid JSON the parser attempts the decode
exactly 3 times and then surfaces a `MalformedResponse` failure; on
valid JSON it returns the decoded value on the first attempt. -/
theorem parse_retry_spec (s : String) :
    (jsonParse s = none →
      parse_agent_response s = (.error .malformedResponse, 3)) ∧
    (∀ v, jsonParse s = some v → parse_agent_response s = (.ok v, 1)) :=
  ⟨fun h => parse_agent_response_none s h,
   fun v h => parse_agent_response_ok s v h⟩

/-- Witness for C3: a malformed text fails after exactly 3 attempts, a
valid one decodes on the first. -/
theorem parse_retry_spec_witness :
    parse_agent_response "oops" = (.error .malformedResponse, 3) ∧
    parse_agent_response "[7]" = (.ok (.arr [.num 7]), 1) :=
  ⟨(parse_retry_spec "oops").1 rfl,
   (parse_retry_spec "[7]").2 (.arr [.num 7]) rfl⟩

/-- C10: syntactically valid JSON that is not an object is returned by
the parser on the first attempt; the shape violation surfaces at the
validation stage (as the mapping error of `APIRequestSchema(**output)`),
not as a parse failure. -/
theorem parse_nonobject_defers (s : String) (v : Json)
    (h1 : jsonParse s = some v) (h2 : v.isObj = false) :
    parse_agent_response s = (.ok v, 1) ∧
    parse_then_validate s = (.error .notAMapping, 1, 1) := by
  have hp := parse_agent_response_ok s v h1
  refine ⟨hp, ?_⟩
  cases v with
  | obj ms => simp [Json.isObj] at h2
  | null => simp [parse_then_validate, hp]
  | bool b => simp [parse_then_validate, hp]
  | num n => simp [parse_then_validate, hp]
  | str t => simp [parse_then_validate, hp]
  | arr xs => simp [parse_then_validate, hp]

/-- Witness for C10 at a JSON array. -/
theorem parse_nonobject_defers_witness :
    parse_agent_response "[1, 2]" = (.ok (.arr [.num 1, .num 2]), 1) ∧
    parse_then_validate "[1, 2]" = (.error .notAMapping, 1, 1) :=
  parse_nonobject_defers "[1, 2]" (.arr [.num 1, .num 2]) rfl rfl

/-- A validation that succeeds only ever sees a well-typed input. -/
theorem validate_ok_wellTyped (output : List (String × Json))
    (r : APIRequestSchema) (hv : validate_agent_output output = .ok r) :
    wellTypedOutput output := by
  unfold validate_agent_output at hv
  split at hv
  · exact absurd hv (by simp)
  case _ m hm =>
    split at hv
    · exact absurd hv (by simp)
    case _ u hu =>
      split at hv
      · exact absurd hv (by simp)
      case _ h hh =>
        split at hv
        · exact absurd hv (by simp)
        case _ b hb =>
          simp [wellTypedOutput, hm, hu, hh, hb, isStrVal, isObjVal]
        case _ => exact absurd hv (by simp)
      case _ => exact absurd hv (by simp)
    case _ => exact absurd hv (by simp)
  case _ => exact absurd hv (by simp)

/-- C4: on a mapping whose `method`, `url`, `headers` and `body` fields
are present with the right types, the validator returns the equivalent
`APIRequestSchema`; on any mapping where one of the four is missing or
mistyped it fails with a `SchemaViolation`; and the pipeline invokes
the validator exactly once (no retry) whenever the parse stage
delivers a value. -/
theorem validate_schema_spec :
    (∀ output m u h b,
      lookupLast output "method" = some (.str m) →
      lookupLast output "url" = some (.str u) →
      lookupLast output "headers" = some (.obj h) →
      lookupLast output "body" = some (.obj b) →
      validate_agent_output output = .ok ⟨m, u, h, b⟩) ∧
    (∀ output, ¬ wellTypedOutput output →
      ∃ e, validate_agent_output output = .error e) ∧
    (∀ s j, jsonParse s = some j → (parse_then_validate s).2.2 = 1) := by
  refine ⟨?_, ?_, ?_⟩
  · intro output m u h b hm hu hh hb
    simp [validate_agent_output, hm, hu, hh, hb]
  · intro output hnot
    cases hv : validate_agent_output output with
    | ok r => exact absurd (validate_ok_wellTyped output r hv) hnot
    | error e => exact ⟨e, rfl⟩
  · intro s j h
    have hp := parse_agent_response_ok s j h
    cases j with
    | obj ms =>
      cases hv : validate_agent_output ms with
      | ok r => simp [parse_then_validate, hp, hv]
      | error e => simp [parse_then_validate, hp, hv]
    | null => simp [parse_then_validate, hp]
    | bool b => simp [parse_then_validate, hp]
    | num n => simp [parse_then_validate, hp]
    | str t => simp [parse_then_validate, hp]
    | arr xs => simp [parse_then_validate, hp]

/-- Witness for C4: a well-typed input validates; a mistyped input
fails with a `SchemaViolation`; a parsed value is validated exactly
once. -/
theorem validate_schema_spec_witness :
    validate_agent_output wGoodFields =
      .ok ⟨"GET", "https://example.com", [], []⟩ ∧
    (∃ e, validate_agent_output wBadFields = .error e) ∧
    (parse_then_validate "[0]").2.2 = 1 :=
  ⟨validate_schema_spec.1 wGoodFields "GET" "https://example.com" [] []
      rfl rfl rfl rfl,
   validate_schema_spec.2.1 wBadFields (by decide),
   validate_schema_spec.2.2 "[0]" (.arr [.num 0]) rfl⟩

/-- Appending an entry under a fresh key does not change other
lookups. -/
theorem lookupLast_append_single (output : List (String × Json))
    (k : String) (v : Json) (key : String) (hk : k ≠ key) :
    lookupLast (output ++ [(k, v)]) key = lookupLast output key := by
  induction output with
  | nil => simp [lookupLast, hk]
  | cons a rest ih => simp [lookupLast, ih]

/-- C9: extra keys beside the four declared fields are not a
`SchemaViolation`: validation of a mapping with an extra key behaves
exactly as without it, and on a well-typed mapping it succeeds with a
`RequestSpec` holding only the four declared fields. -/
theorem validate_ignores_extra_keys (output : List (String × Json))
    (k : String) (v : Json)
    (hk : k ≠ "method" ∧ k ≠ "url" ∧ k ≠ "headers" ∧ k ≠ "body") :
    validate_agent_output (output ++ [(k, v)]) = validate_agent_output output ∧
    (∀ m u h b,
      lookupLast output "method" = some (.str m) →
      lookupLast output "url" = some (.str u) →
      lookupLast output "headers" = some (.obj h) →
      lookupLast output "body" = some (.obj b) →
      validate_agent_output (output ++ [(k, v)]) = .ok ⟨m, u, h, b⟩) := by
  have heq : validate_agent_output (output ++ [(k, v)]) =
      validate_agent_output output := by
    unfold validate_agent_output
    rw [lookupLast_append_single output k v _ hk.1,
        lookupLast_append_single output k v _ hk.2.1,
        lookupLast_append_single output k v _ hk.2.2.1,
        lookupLast_append_single output k v _ hk.2.2.2]
  refine ⟨heq, ?_⟩
  intro m u h b hm hu hh hb
  rw [heq]
  simp [validate_agent_output, hm, hu, hh, hb]

/-- Witness for C9: a well-typed mapping with an extra key validates to
the same four-field request. -/
theorem validate_ignores_extra_keys_witness :
    validate_agent_output (wGoodFields ++ [("extra", .num 1)]) =
      validate_agent_output wGoodFields ∧
    validate_agent_output (wGoodFields ++ [("extra", .num 1)]) =
      .ok ⟨"GET", "https://example.com", [], []⟩ :=
  ⟨(validate_ignores_extra_keys wGoodFields "extra" (.num 1)
      ⟨by decide, by decide, by decide, by decide⟩).1,
   (validate_ignores_extra_keys wGoodFields "extra" (.num 1)
      ⟨by decide, by decide, by decide, by decide⟩).2
      "GET" "https://example.com" [] [] rfl rfl rfl rfl⟩

/-- C5 counterexample: a 304 response is not in the 2xx range, yet the
executor does not raise — it returns a successful envelope wrapping the
304 on the first attempt (`raise_for_status` only rejects
`status >= 400`). -/
theorem execute_non2xx_counterexample :
    (wResp304.status < 200 ∨ 300 ≤ wResp304.status) ∧
    execute_async_api_call wTransport304 wReq true = (.ok wEnv304, 1) :=
  ⟨Or.inr (by decide), rfl⟩

/-- C5 (amended): on any response with status `>= 400` the executor
raises before returning an envelope, and the failure is transport-class
and subject to the retry policy (a persistent `>= 400` status exhausts
all 3 attempts). -/
theorem execute_status_ge400_raises
    (transport : Nat → Except ClientError HttpResponse)
    (req : APIRequestSchema) (raw : Bool) (resp : HttpResponse)
    (hs : 400 ≤ resp.status) :
    (∀ i, transport i = .ok resp →
      execute_attempt transport req raw i =
        .error (.client (.statusError resp.status))) ∧
    ((∀ i, transport i = .ok resp) →
      execute_async_api_call transport req raw =
        (.error (.client (.statusError resp.status)), 3)) := by
  have h1 : ∀ i, transport i = .ok resp →
      execute_attempt transport req raw i =
        .error (.client (.statusError resp.status)) := by
    intro i h
    simp [execute_attempt, h, hs]
  refine ⟨h1, ?_⟩
  intro hall
  simp [execute_async_api_call, retryAttempts, retryGo,
    h1 0 (hall 0), h1 1 (hall 1), h1 2 (hall 2)]

/-- Witness for the amended C5 at a persistent 500. -/
theorem execute_status_ge400_raises_witness :
    execute_attempt wTransport500 wReq false 0 =
      .error (.client (.statusError 500)) ∧
    execute_async_api_call wTransport500 wReq false =
      (.error (.client (.statusError 500)), 3) :=
  ⟨(execute_status_ge400_raises wTransport500 wReq false wResp500
      (by decide)).1 0 rfl,
   (execute_status_ge400_raises wTransport500 wReq false wResp500
      (by decide)).2 (fun _ => rfl)⟩

/-- C7: on every successful executor call, the envelope's `response`
field is the raw, undecoded response text when raw mode was requested,
and the JSON-decoded response body otherwise (always taken from the
attempt that succeeded). -/
theorem execute_success_response
    (transport : Nat → Except ClientError HttpResponse)
    (req : APIRequestSchema) (raw : Bool) (env : APIResponseSchema) (n : Nat)
    (h : execute_async_api_call transport req raw = (.ok env, n)) :
    ∃ resp, transport (n - 1) = .ok resp ∧ resp.status < 400 ∧
      (raw = true → env.response = .rawText resp.text) ∧
      (raw = false → ∃ j, jsonParse resp.text = some j ∧
        env.response = .jsonVal j) := by
  have hlast := retryGo_last (execute_attempt transport req raw) 2 0
  rw [execute_async_api_call, retryAttempts] at h
  have h1 : (retryGo (execute_attempt transport req raw) 2 0).1 = .ok env := by
    rw [h]
  have h2 : (retryGo (execute_attempt transport req raw) 2 0).2 = n := by
    rw [h]
  rw [h1, h2] at hlast
  unfold execute_attempt at hlast
  cases ht : transport (n - 1) with
  | error e => rw [ht] at hlast; exact absurd hlast (by simp)
  | ok resp =>
    rw [ht] at hlast
    dsimp only at hlast
    by_cases hst : 400 ≤ resp.status
    · rw [if_pos hst] at hlast; exact absurd hlast (by simp)
    · rw [if_neg hst] at hlast
      refine ⟨resp, rfl, by omega, ?_, ?_⟩
      · intro hraw
        subst hraw
        simp only [if_pos] at hlast
        have := hlast.symm
        simp only [Except.ok.injEq] at this
        rw [← this]
      · intro hraw
        subst hraw
        simp only [Bool.false_eq_true, if_neg, if_false] at hlast
        cases hj : jsonParse resp.text with
        | none => rw [hj] at hlast; exact absurd hlast (by simp)
        | some j =>
          rw [hj] at hlast
          have := hlast.symm
          simp only [Except.ok.injEq] at this
          exact ⟨j, rfl, by rw [← this]⟩

/-- Witness for C7: with a JSON body and raw mode off, the returned
envelope's `response` is the decoded body. -/
theorem execute_success_response_witness :
    ∃ resp, wTransportJson 0 = .ok resp ∧ resp.status < 400 ∧
      ((false : Bool) = true → wEnvJson.response = .rawText resp.text) ∧
      ((false : Bool) = false → ∃ j, jsonParse resp.text = some j ∧
        wEnvJson.response = .jsonVal j) :=
  execute_success_response wTransportJson wReq false wEnvJson 1 rfl

/-! ## Round-trip machinery for C8 -/

/-- `skipWs` is the identity on input that starts with a
non-whitespace character. -/
theorem skipWs_cons (c : Char) (r : List Char) (h : isWs c = false) :
    skipWs (c :: r) = c :: r := by
  simp [skipWs, h]

/-- `hexVal` inverts `lowHexDigit` on digit values. -/
theorem hexVal_lowHexDigit : ∀ n < 16, hexVal (lowHexDigit n) = some n := by
  decide

/-- The keyword renderings, as character lists. -/
theorem nullKeyword : ("null".data : List Char) = ['n', 'u', 'l', 'l'] := rfl

/-- The `true` keyword rendering. -/
theorem trueKeyword : ("true".data : List Char) = ['t', 'r', 'u', 'e'] := rfl

/-- The `false` keyword rendering. -/
theorem falseKeyword : ("false".data : List Char) = ['f', 'a', 'l', 's', 'e'] := rfl

/-- Parsing a string body after escaping recovers the original
characters and leaves the rest untouched. -/
theorem parseStringBody_escape (s : List Char) (rest : List Char) :
    parseStringBody (escapeChars s ++ '"' :: rest) = some (s, rest) := by
  induction s with
  | nil => simp [escapeChars, parseStringBody]
  | cons c cs ih =>
    show parseStringBody ((escapeChar c ++ escapeChars cs) ++ '"' :: rest) = _
    rw [List.append_assoc]
    by_cases h1 : c = '"'
    · subst h1
      simp +decide [escapeChar, parseStringBody, parseEscape, escMap, ih]
    · by_cases h2 : c = '\\'
      · subst h2
        simp +decide [escapeChar, parseStringBody, parseEscape, escMap, ih]
      · by_cases h3 : c.toNat < 32
        · have hhi := hexVal_lowHexDigit (c.toNat / 16) (by omega)
          have hlo := hexVal_lowHexDigit (c.toNat % 16) (by omega)
          have h0 : hexVal '0' = some 0 := by decide
          simp +decide [escapeChar, controlEscape, if_neg h1, if_neg h2, if_pos h3,
            parseStringBody, parseEscape, hhi, hlo, h0, ih]
          have harith : c.toNat / 16 * 16 + c.toNat % 16 = c.toNat := by omega
          rw [harith, Char.ofNat_toNat]
        · simp only [escapeChar, if_neg h1, if_neg h2, if_neg h3,
            List.cons_append, List.nil_append]
          simp only [parseStringBody]
          rw [if_neg h1, if_neg h2, if_neg h3, ih]
          rfl

/-- Characters emitted for digit values are decimal digits. -/
theorem isDigit_ofNat_digit (n : Nat) (h : n < 10) :
    (Char.ofNat (48 + n)).isDigit = true := by
  interval_cases n <;> decide

/-- Code point of an emitted digit character. -/
theorem toNat_ofNat_digit (n : Nat) (h : n < 10) :
    (Char.ofNat (48 + n)).toNat = 48 + n := by
  interval_cases n <;> decide

/-- `natToCharsF` produces a non-empty, all-digit list when given
enough fuel. -/
theorem natToCharsF_digits (fuel : Nat) :
    ∀ n, n < fuel →
      (∀ c ∈ natToCharsF fuel n, c.isDigit = true) ∧ natToCharsF fuel n ≠ [] := by
  induction fuel with
  | zero => intro n hn; omega
  | succ k ih =>
    intro n hn
    by_cases h10 : n < 10
    · rw [natToCharsF, if_pos h10]
      exact ⟨by simpa using isDigit_ofNat_digit n h10, by simp⟩
    · rw [natToCharsF, if_neg h10]
      have hrec := ih (n / 10) (by omega)
      constructor
      · intro c hc
        rcases List.mem_append.mp hc with hc1 | hc2
        · exact hrec.1 c hc1
        · have : c = Char.ofNat (48 + n % 10) := by simpa using hc2
          subst this
          exact isDigit_ofNat_digit (n % 10) (by omega)
      · simp

/-- `parseDigits` consumes exactly an all-digit prefix, folding it into
a value, when the remainder does not start with a digit. -/
theorem parseDigits_append (ds : List Char) :
    ∀ rest acc, (∀ c ∈ ds, c.isDigit = true) →
      (∀ c t, rest = c :: t → c.isDigit = false) →
      parseDigits (ds ++ rest) acc =
        (List.foldl (fun a c => a * 10 + (c.toNat - 48)) acc ds, rest) := by
  induction ds with
  | nil =>
    intro rest acc _ hb
    cases rest with
    | nil => simp [parseDigits]
    | cons c t => simp [parseDigits, hb c t rfl]
  | cons d ds ih =>
    intro rest acc hd hb
    have hdig : d.isDigit = true := hd d (by simp)
    rw [List.cons_append, parseDigits, if_pos hdig]
    rw [ih rest _ (fun c hc => hd c (by simp [hc])) hb]
    simp

/-- Folding the digits of `n` onto `acc` recovers
`acc * 10 ^ digits + n`. -/
theorem foldl_natToCharsF (fuel : Nat) :
    ∀ n acc, n < fuel →
      List.foldl (fun a c => a * 10 + (c.toNat - 48)) acc (natToCharsF fuel n)
        = acc * 10 ^ (natToCharsF fuel n).length + n := by
  induction fuel with
  | zero => intro n acc hn; omega
  | succ k ih =>
    intro n acc hn
    by_cases h10 : n < 10
    · rw [natToCharsF, if_pos h10]
      simp [toNat_ofNat_digit n h10]
    · rw [natToCharsF, if_neg h10]
      rw [List.foldl_append, ih (n / 10) acc (by omega)]
      simp only [List.foldl_cons, List.foldl_nil, List.length_append,
        List.length_cons, List.length_nil]
      rw [toNat_ofNat_digit (n % 10) (by omega)]
      rw [pow_succ, ← Nat.mul_assoc]
      generalize acc * 10 ^ (natToCharsF k (n / 10)).length = A
      omega

/-- `parseNat` inverts `natToChars` whenever what follows cannot extend
the literal. -/
theorem parseNat_natToChars (n : Nat) (rest : List Char)
    (hb : ∀ c t, rest = c :: t →
      c.isDigit = false ∧ c ≠ '.' ∧ c ≠ 'e' ∧ c ≠ 'E') :
    parseNat (natToChars n ++ rest) = some (n, rest) := by
  have hfacts := natToCharsF_digits (n + 1) n (by omega)
  rcases hds : natToCharsF (n + 1) n with _ | ⟨d, tl⟩
  · exact absurd hds hfacts.2
  · have hdig : d.isDigit = true := by
      have := hfacts.1 d; rw [hds] at this; exact this (by simp)
    have hall : ∀ c ∈ d :: tl, c.isDigit = true := by
      intro c hc; have := hfacts.1 c; rw [hds] at this; exact this hc
    have hfold := foldl_natToCharsF (n + 1) n 0 (by omega)
    rw [hds] at hfold
    have hparse := parseDigits_append (d :: tl) rest 0 hall
      (fun c t ht => (hb c t ht).1)
    rw [natToChars, hds, List.cons_append, parseNat, if_pos hdig,
      ← List.cons_append, hparse, hfold]
    simp only [Nat.zero_mul, Nat.zero_add]
    cases rest with
    | nil => rfl
    | cons c2 t2 =>
      have := hb c2 t2 rfl
      simp [this.2.1, this.2.2.1, this.2.2.2]

/-- Parsing a rendered integer literal recovers the integer. -/
theorem parseNumber_renderInt (i : Int) (rest : List Char)
    (hb : ∀ c t, rest = c :: t →
      c.isDigit = false ∧ c ≠ '.' ∧ c ≠ 'e' ∧ c ≠ 'E') :
    parseNumber (renderInt i ++ rest) = some (i, rest) := by
  by_cases hneg : i < 0
  · rw [renderInt, if_pos hneg, List.cons_append, parseNumber, if_pos rfl]
    rw [parseNat_natToChars i.natAbs rest hb]
    simp only [Option.map_some']
    congr 1
    congr 1
    omega
  · rw [renderInt, if_neg hneg]
    have hfacts := natToCharsF_digits (i.toNat + 1) i.toNat (by omega)
    rcases hds : natToCharsF (i.toNat + 1) i.toNat with _ | ⟨d, tl⟩
    · exact absurd hds hfacts.2
    · have hdig : d.isDigit = true := by
        have := hfacts.1 d; rw [hds] at this; exact this (by simp)
      have hdash : ¬ d = '-' := by
        intro hd; rw [hd] at hdig; simp at hdig
      rw [natToChars, hds, List.cons_append, parseNumber, if_neg hdash,
        ← List.cons_append, ← hds, ← natToChars,
        parseNat_natToChars i.toNat rest hb]
      simp only [Option.map_some']
      congr 1
      congr 1
      omega

/-- A decimal digit is none of the parser's structural characters. -/
theorem digit_not_lit (d : Char) (h : d.isDigit = true) :
    isWs d = false ∧ d ≠ 'n' ∧ d ≠ 't' ∧ d ≠ 'f' ∧ d ≠ '"' ∧ d ≠ '[' ∧
      d ≠ '{' ∧ d ≠ ']' ∧ d ≠ '}' ∧ d ≠ '-' ∧ d ≠ ',' := by
  have hne : ∀ x : Char, x.isDigit = false → d ≠ x := by
    intro x hx he
    rw [he] at h
    rw [h] at hx
    cases hx
  have hws : isWs d = false := by
    cases heq : isWs d with
    | false => rfl
    | true =>
      simp only [isWs, Bool.or_eq_true, decide_eq_true_eq] at heq
      rcases heq with ((h1 | h1) | h1) | h1 <;> (subst h1; simp at h)
  exact ⟨hws, hne 'n' rfl, hne 't' rfl, hne 'f' rfl, hne '"' rfl, hne '[' rfl,
    hne '{' rfl, hne ']' rfl, hne '}' rfl, hne '-' rfl, hne ',' rfl⟩

/-- A rendered integer starts with a digit or a minus sign. -/
theorem renderInt_head (i : Int) :
    ∃ d tl, renderInt i = d :: tl ∧ (d.isDigit = true ∨ d = '-') := by
  by_cases hneg : i < 0
  · exact ⟨'-', natToChars i.natAbs, by rw [renderInt, if_pos hneg], Or.inr rfl⟩
  · rw [renderInt, if_neg hneg]
    have hfacts := natToCharsF_digits (i.toNat + 1) i.toNat (by omega)
    rcases hds : natToCharsF (i.toNat + 1) i.toNat with _ | ⟨d, tl⟩
    · exact absurd hds hfacts.2
    · refine ⟨d, tl, by rw [natToChars, hds], Or.inl ?_⟩
      have := hfacts.1 d; rw [hds] at this; exact this (by simp)

/-- What may follow a rendered value never extends a number literal. -/
theorem okRest_numBoundary (rest : List Char) (hr : okRest rest) :
    ∀ c t, rest = c :: t →
      c.isDigit = false ∧ c ≠ '.' ∧ c ≠ 'e' ∧ c ≠ 'E' := by
  rcases hr with h | ⟨c0, t0, h, hc0⟩
  · intro c t hct; rw [h] at hct; cases hct
  · intro c t hct
    rw [h] at hct
    injection hct with h1 h2
    subst h1
    rcases hc0 with h3 | h3 | h3 <;>
      (subst h3; exact ⟨rfl, by decide, by decide, by decide⟩)

/-- Every rendered JSON value starts with a non-whitespace character
that is not a closing bracket. -/
theorem renderChars_head (v : Json) :
    ∃ c t, renderChars v = c :: t ∧ isWs c = false ∧ c ≠ ']' ∧ c ≠ '}' := by
  cases v with
  | null =>
    exact ⟨'n', ['u', 'l', 'l'], by simp [renderChars], by decide, by decide, by decide⟩
  | bool b =>
    cases b with
    | true =>
      exact ⟨'t', ['r', 'u', 'e'], by simp [renderChars], by decide, by decide, by decide⟩
    | false =>
      exact ⟨'f', ['a', 'l', 's', 'e'], by simp [renderChars], by decide, by decide, by decide⟩
  | num i =>
    obtain ⟨d, tl, hds, hd⟩ := renderInt_head i
    refine ⟨d, tl, by simp [renderChars, hds], ?_, ?_, ?_⟩
    · rcases hd with hd | hd
      · exact (digit_not_lit d hd).1
      · subst hd; decide
    · rcases hd with hd | hd
      · exact (digit_not_lit d hd).2.2.2.2.2.2.2.1
      · subst hd; decide
    · rcases hd with hd | hd
      · exact (digit_not_lit d hd).2.2.2.2.2.2.2.2.1
      · subst hd; decide
  | str s =>
    exact ⟨'"', escapeChars s.data ++ ['"'], by simp [renderChars, renderStr],
      by decide, by decide, by decide⟩
  | arr xs =>
    cases xs with
    | nil => exact ⟨'[', [']'], by simp [renderChars], by decide, by decide, by decide⟩
    | cons x xs =>
      exact ⟨'[', renderChars x ++ (renderElemsTail xs ++ [']']),
        by simp [renderChars], by decide, by decide, by decide⟩
  | obj ms =>
    cases ms with
    | nil => exact ⟨'{', ['}'], by simp [renderChars], by decide, by decide, by decide⟩
    | cons m ms =>
      exact ⟨'{', renderMember m ++ (renderMembersTail ms ++ ['}']),
        by simp [renderChars], by decide, by decide, by decide⟩

/-- Every value needs at least one unit of parser fuel. -/
theorem jsonFuel_pos (v : Json) : 1 ≤ jsonFuel v := by
  cases v <;> simp [jsonFuel]

mutual

/-- Parsing a rendered value (with enough fuel, before a legal
continuation) recovers the value. -/
theorem pv_render (v : Json) (fuel : Nat) (rest : List Char)
    (hf : jsonFuel v ≤ fuel) (hr : okRest rest) :
    parseStep fuel .value (renderChars v ++ rest) = some (v, rest) := by
  obtain ⟨k, rfl⟩ : ∃ k, fuel = k + 1 :=
    ⟨fuel - 1, by have := jsonFuel_pos v; omega⟩
  rw [parseStep]
  cases v with
  | null =>
    simp +decide [renderChars, nullKeyword, valueStep, skipWs, isWs, expectLit]
  | bool b =>
    cases b <;>
      simp +decide [renderChars, trueKeyword, falseKeyword, valueStep, skipWs,
        isWs, expectLit]
  | num i =>
    obtain ⟨d, tl, hds, hd⟩ := renderInt_head i
    have hnum := parseNumber_renderInt i rest (okRest_numBoundary rest hr)
    have hfacts : isWs d = false ∧ d ≠ 'n' ∧ d ≠ 't' ∧ d ≠ 'f' ∧ d ≠ '"' ∧
        d ≠ '[' ∧ d ≠ '{' := by
      rcases hd with hd | hd
      · have h9 := digit_not_lit d hd
        exact ⟨h9.1, h9.2.1, h9.2.2.1, h9.2.2.2.1, h9.2.2.2.2.1,
          h9.2.2.2.2.2.1, h9.2.2.2.2.2.2.1⟩
      · subst hd
        exact ⟨by decide, by decide, by decide, by decide, by decide,
          by decide, by decide⟩
    rw [show renderChars (.num i) = renderInt i from by simp [renderChars]]
    rw [hds, List.cons_append]
    simp only [valueStep]
    rw [skipWs_cons d _ hfacts.1]
    dsimp only
    rw [if_neg hfacts.2.1, if_neg hfacts.2.2.1, if_neg hfacts.2.2.2.1,
      if_neg hfacts.2.2.2.2.1, if_neg hfacts.2.2.2.2.2.1,
      if_neg hfacts.2.2.2.2.2.2]
    rw [← List.cons_append, ← hds, hnum]
    rfl
  | str s =>
    rw [show renderChars (.str s) = '"' :: (escapeChars s.data ++ ['"'])
      from by simp [renderChars, renderStr]]
    simp only [List.cons_append, List.append_assoc, List.singleton_append,
      List.nil_append]
    simp only [valueStep]
    rw [skipWs_cons '"' _ (by decide)]
    dsimp only
    rw [if_neg (by decide), if_neg (by decide), if_neg (by decide), if_pos rfl]
    rw [parseStringBody_escape]
    rfl
  | arr xs =>
    cases xs with
    | nil => simp +decide [renderChars, valueStep, skipWs, isWs]
    | cons x xs =>
      obtain ⟨c0, t0, hc0, hws0, hnb0, _⟩ := renderChars_head x
      rw [show renderChars (.arr (x :: xs)) =
          '[' :: (renderChars x ++ (renderElemsTail xs ++ [']']))
        from by simp [renderChars]]
      simp only [List.cons_append, List.append_assoc, List.singleton_append,
        List.nil_append]
      simp only [valueStep]
      rw [skipWs_cons '[' _ (by decide)]
      dsimp only
      rw [if_neg (by decide), if_neg (by decide), if_neg (by decide),
        if_neg (by decide), if_pos rfl]
      rw [hc0, List.cons_append, skipWs_cons c0 _ hws0]
      have hfx : elemsFuel (x :: xs) ≤ k := by
        simp only [jsonFuel] at hf; omega
      split
      next r2 heq =>
        injection heq with h1 h2
        exact absurd h1 hnb0
      next =>
        rw [← List.cons_append, ← hc0, pe_render x xs k rest hfx]
  | obj ms =>
    cases ms with
    | nil => simp +decide [renderChars, valueStep, skipWs, isWs]
    | cons m ms =>
      rw [show renderChars (.obj (m :: ms)) =
          '{' :: (renderMember m ++ (renderMembersTail ms ++ ['}']))
        from by simp [renderChars]]
      simp only [List.cons_append, List.append_assoc, List.singleton_append,
        List.nil_append]
      simp only [valueStep]
      rw [skipWs_cons '{' _ (by decide)]
      dsimp only
      rw [if_neg (by decide), if_neg (by decide), if_neg (by decide),
        if_neg (by decide), if_neg (by decide), if_pos rfl]
      have hmem : renderMember m ++ (renderMembersTail ms ++ '}' :: rest)
          = '"' :: (escapeChars m.1.data ++
              ('"' :: (':' :: (renderChars m.2 ++
                (renderMembersTail ms ++ '}' :: rest))))) := by
        obtain ⟨k0, v0⟩ := m
        simp [renderMember, renderStr]
      rw [hmem, skipWs_cons '"' _ (by decide)]
      have hfm : membersFuel (m :: ms) ≤ k := by
        simp only [jsonFuel] at hf; omega
      split
      next r2 heq =>
        injection heq with h1 h2
        exact absurd h1 (by decide)
      next =>
        rw [← hmem, pm_render m ms k rest hfm]
termination_by jsonFuel v
decreasing_by all_goals (subst_vars; simp [jsonFuel, elemsFuel, membersFuel])

/-- Parsing rendered array elements (after the opening bracket)
recovers the element list. -/
theorem pe_render (x : Json) (xs : List Json) (fuel : Nat) (rest : List Char)
    (hf : elemsFuel (x :: xs) ≤ fuel) :
    parseStep fuel .elems (renderChars x ++ (renderElemsTail xs ++ ']' :: rest))
      = some (.arr (x :: xs), rest) := by
  obtain ⟨k, rfl⟩ : ∃ k, fuel = k + 1 :=
    ⟨fuel - 1, by simp [elemsFuel] at hf; omega⟩
  rw [parseStep]
  simp only [elemsStep]
  have hfx : jsonFuel x ≤ k := by simp only [elemsFuel] at hf; omega
  have hrx : okRest (renderElemsTail xs ++ ']' :: rest) := by
    cases xs with
    | nil => exact Or.inr ⟨']', rest, by simp [renderElemsTail], Or.inr (Or.inl rfl)⟩
    | cons x' xs' =>
      exact Or.inr ⟨',', renderChars x' ++ (renderElemsTail xs' ++ ']' :: rest),
        by simp [renderElemsTail], Or.inl rfl⟩
  rw [pv_render x k _ hfx hrx]
  dsimp only
  cases xs with
  | nil =>
    simp only [renderElemsTail, List.nil_append]
    rw [skipWs_cons ']' rest (by decide)]
    dsimp only
    rw [if_neg (by decide), if_pos rfl]
  | cons x' xs' =>
    simp only [renderElemsTail, List.cons_append, List.append_assoc]
    rw [skipWs_cons ',' _ (by decide)]
    dsimp only
    rw [if_pos rfl]
    have hfx' : elemsFuel (x' :: xs') ≤ k := by
      simp only [elemsFuel] at hf ⊢; omega
    rw [pe_render x' xs' k rest hfx']
termination_by elemsFuel (x :: xs)
decreasing_by all_goals (subst_vars; simp [jsonFuel, elemsFuel, membersFuel] <;> omega)

/-- Parsing rendered object members (after the opening brace) recovers
the member list. -/
theorem pm_render (m0 : String × Json) (ms : List (String × Json))
    (fuel : Nat) (rest : List Char)
    (hf : membersFuel (m0 :: ms) ≤ fuel) :
    parseStep fuel .members
        (renderMember m0 ++ (renderMembersTail ms ++ '}' :: rest))
      = some (.obj (m0 :: ms), rest) := by
  obtain ⟨k, rfl⟩ : ∃ k, fuel = k + 1 :=
    ⟨fuel - 1, by simp [membersFuel] at hf; omega⟩
  rw [parseStep]
  simp only [membersStep]
  have hmem : renderMember m0 = renderStr m0.1 ++ (':' :: renderChars m0.2) := by
    obtain ⟨a, b⟩ := m0
    simp [renderMember]
  rw [hmem]
  simp only [renderStr, List.cons_append, List.append_assoc,
    List.singleton_append, List.nil_append]
  rw [skipWs_cons '"' _ (by decide)]
  dsimp only
  rw [if_pos rfl]
  rw [parseStringBody_escape]
  dsimp only
  rw [skipWs_cons ':' _ (by decide)]
  dsimp only
  rw [if_pos rfl]
  have hfv : jsonFuel m0.2 ≤ k := by simp only [membersFuel] at hf; omega
  have hrv : okRest (renderMembersTail ms ++ '}' :: rest) := by
    cases ms with
    | nil => exact Or.inr ⟨'}', rest, by simp [renderMembersTail], Or.inr (Or.inr rfl)⟩
    | cons m' ms' =>
      exact Or.inr ⟨',', renderMember m' ++ (renderMembersTail ms' ++ '}' :: rest),
        by simp [renderMembersTail], Or.inl rfl⟩
  rw [pv_render m0.2 k _ hfv hrv]
  dsimp only
  cases ms with
  | nil =>
    simp only [renderMembersTail, List.nil_append]
    rw [skipWs_cons '}' rest (by decide)]
    dsimp only
    rw [if_neg (by decide), if_pos rfl]
  | cons m' ms' =>
    simp only [renderMembersTail, List.cons_append, List.append_assoc]
    rw [skipWs_cons ',' _ (by decide)]
    dsimp only
    rw [if_pos rfl]
    have hf' : membersFuel (m' :: ms') ≤ k := by
      simp only [membersFuel] at hf ⊢; omega
    rw [pm_render m' ms' k rest hf']
termination_by membersFuel (m0 :: ms)
decreasing_by all_goals (subst_vars; simp [jsonFuel, elemsFuel, membersFuel] <;> omega)

end

mutual

/-- The fuel a value needs is within a factor 4 of its rendered
length. -/
theorem jsonFuel_le (v : Json) : jsonFuel v ≤ 4 * (renderChars v).length := by
  cases v with
  | null => simp [jsonFuel, renderChars]
  | bool b => cases b <;> simp [jsonFuel, renderChars]
  | num i =>
    obtain ⟨d, tl, hds, _⟩ := renderInt_head i
    rw [show renderChars (.num i) = renderInt i from by simp [renderChars], hds]
    simp [jsonFuel]
    omega
  | str s =>
    rw [show renderChars (.str s) = renderStr s from by simp [renderChars]]
    simp [jsonFuel, renderStr]
    omega
  | arr xs =>
    cases xs with
    | nil => simp [jsonFuel, elemsFuel, renderChars]
    | cons x xs =>
      have h1 := jsonFuel_le x
      have h2 := elemsFuel_le xs
      rw [show renderChars (.arr (x :: xs)) =
          '[' :: (renderChars x ++ (renderElemsTail xs ++ [']']))
        from by simp [renderChars]]
      simp only [jsonFuel, elemsFuel, List.length_cons, List.length_append]
      omega
  | obj ms =>
    cases ms with
    | nil => simp [jsonFuel, membersFuel, renderChars]
    | cons m ms =>
      have h1 := jsonFuel_le m.2
      have h2 := membersFuel_le ms
      have h3 : (renderMember m).length =
          (renderStr m.1).length + 1 + (renderChars m.2).length := by
        obtain ⟨a, b⟩ := m
        simp [renderMember]
        omega
      rw [show renderChars (.obj (m :: ms)) =
          '{' :: (renderMember m ++ (renderMembersTail ms ++ ['}']))
        from by simp [renderChars]]
      simp only [jsonFuel, membersFuel, List.length_cons, List.length_append, h3]
      omega

/-- Fuel bound for array-element tails. -/
theorem elemsFuel_le (xs : List Json) :
    elemsFuel xs ≤ 4 * (renderElemsTail xs).length := by
  cases xs with
  | nil => simp [elemsFuel, renderElemsTail]
  | cons x xs =>
    have h1 := jsonFuel_le x
    have h2 := elemsFuel_le xs
    rw [show renderElemsTail (x :: xs) = ',' :: (renderChars x ++ renderElemsTail xs)
      from by simp [renderElemsTail]]
    simp only [elemsFuel, List.length_cons, List.length_append]
    omega

/-- Fuel bound for object-member tails. -/
theorem membersFuel_le (ms : List (String × Json)) :
    membersFuel ms ≤ 4 * (renderMembersTail ms).length := by
  cases ms with
  | nil => simp [membersFuel, renderMembersTail]
  | cons m ms =>
    have h1 := jsonFuel_le m.2
    have h2 := membersFuel_le ms
    have h3 : (renderMember m).length =
        (renderStr m.1).length + 1 + (renderChars m.2).length := by
      obtain ⟨a, b⟩ := m
      simp [renderMember]
      omega
    rw [show renderMembersTail (m :: ms) = ',' :: (renderMember m ++ renderMembersTail ms)
      from by simp [renderMembersTail]]
    simp only [membersFuel, List.length_cons, List.length_append, h3]
    omega

end

/-- `json.loads` inverts rendering: a rendered value decodes to
itself. -/
theorem jsonParse_renderJson (v : Json) : jsonParse (renderJson v) = some v := by
  have hb := jsonFuel_le v
  have hp := pv_render v (4 * (renderChars v).length + 4) [] (by omega) (Or.inl rfl)
  rw [List.append_nil] at hp
  simp only [jsonParse, renderJson, String.length]
  rw [hp]
  simp [skipWs]

/-- C8: serializing a `RequestSpec` and parsing the text back yields the
same four fields — the parsed object holds exactly the original method,
url, headers and body, and validating it returns the original
request. -/
theorem requestspec_roundtrip (r : APIRequestSchema) :
    jsonParse (serializeRequest r) = some (requestToJson r) ∧
    validate_agent_output
        [("method", .str r.method), ("url", .str r.url),
         ("headers", .obj r.headers), ("body", .obj r.body)] = .ok r := by
  constructor
  · exact jsonParse_renderJson (requestToJson r)
  · rfl

end FluidAPI
